import Mathlib

/-! Shallow embedding of the CARLA Open3D lidar visualization script
(`CARLA Scripts/open3d_lidar.py`): the two sensor-callback decoders
(`lidar_callback` and `semantic_lidar_callback`), the class palette
`LABEL_COLORS`, the actor-color table logic from `main`, the frame
loop with its geometry registration and point-cloud recording, and a
small heap model capturing the in-place numpy array operations. -/

set_option autoImplicit false

universe u v

/-- Model of an IEEE floating-point value as found in the sensor buffers
and produced by the numpy operations of the script: a finite value
(idealized as a rational), one of the two infinities, or NaN. -/
inductive NumVal where
  | fin (q : ℚ)
  | posInf
  | negInf
  | nan
deriving DecidableEq

/-- Unary negation of a float value (used by `-points[:, :1]` and by
`-data[..y..]`). -/
def NumVal.neg : NumVal → NumVal
  | .fin q => .fin (-q)
  | .posInf => .negInf
  | .negInf => .posInf
  | .nan => .nan

/-- `np.log` on a float value.  The finite logarithm on positive
rationals is abstracted as an oracle `log`; following IEEE semantics,
`np.log 0` is `-inf` and `np.log` of a negative value is NaN. -/
def logVal (log : ℚ → ℚ) : NumVal → NumVal
  | .fin q => if q < 0 then .nan else if q = 0 then .negInf else .fin (log q)
  | .posInf => .posInf
  | .negInf => .nan
  | .nan => .nan

/-- Division of a float value by a nonzero finite constant `c` (the
script divides only by `np.log(np.exp(-0.004 * 100))`, which is the
negative constant `-0.4`). -/
def divConst (v : NumVal) (c : ℚ) : NumVal :=
  match v with
  | .fin q => .fin (q / c)
  | .posInf => if c < 0 then .negInf else .posInf
  | .negInf => if c < 0 then .posInf else .negInf
  | .nan => .nan

/-- `1.0 - v` on a float value. -/
def oneSub : NumVal → NumVal
  | .fin q => .fin (1 - q)
  | .posInf => .negInf
  | .negInf => .posInf
  | .nan => .nan

/-- `intensity_col = 1.0 - np.log(intensity) / np.log(np.exp(-0.004 * 100))`;
the denominator is exactly `-0.4 = -2/5` in real arithmetic. -/
def intensityCol (log : ℚ → ℚ) (i : NumVal) : NumVal :=
  oneSub (divConst (logVal log i) (-2/5))

/-- One linear segment of `np.interp`: the value at `x` of the segment
from `p0` to `p1`, with the slope written the way numpy computes it. -/
def interpSeg (x : ℚ) (p0 p1 : ℚ × ℚ) : ℚ :=
  (p1.2 - p0.2) / (p1.1 - p0.1) * (x - p0.1) + p0.2

/-- The scan of `np.interp`, entered with `x` strictly to the right of
the abscissa of `p0`; past the last point it clamps to the last
ordinate. -/
def interpFrom (x : ℚ) (p0 : ℚ × ℚ) : List (ℚ × ℚ) → ℚ
  | [] => p0.2
  | p1 :: rest => if x ≤ p1.1 then interpSeg x p0 p1 else interpFrom x p1 rest

/-- `np.interp` at a finite abscissa `x` over sample points `pts` with
sorted abscissas: values left of the domain clamp to the first
ordinate, values right of it to the last. -/
def interpQ (x : ℚ) : List (ℚ × ℚ) → ℚ
  | [] => 0
  | p0 :: rest => if x ≤ p0.1 then p0.2 else interpFrom x p0 rest

/-- `np.interp` on a float value: `-inf` clamps to the first ordinate,
`+inf` to the last, and NaN propagates to the result. -/
def interpVal (v : NumVal) (pts : List (ℚ × ℚ)) : NumVal :=
  match v with
  | .fin q => .fin (interpQ q pts)
  | .negInf => .fin ((pts.head?.map Prod.snd).getD 0)
  | .posInf => .fin ((pts.getLast?.map Prod.snd).getD 0)
  | .nan => .nan

/-- `VID_RANGE = np.linspace(0.0, 1.0, n)` where `n` is the number of
colormap entries: the list `0/(n-1), 1/(n-1), ..., (n-1)/(n-1)`. -/
def vidRange (n : ℕ) : List ℚ :=
  (List.range n).map (fun i : ℕ => (i : ℚ) / ((n : ℚ) - 1))

/-- Pair one channel of the colormap with `VID_RANGE`, giving the sample
points handed to `np.interp`. -/
def rampPoints (chan : List ℚ) : List (ℚ × ℚ) :=
  (vidRange chan.length).zip chan

/-- Per-point colorizer of the intensity path: the three channels of the
colormap `vir` (`VIRIDIS`) are interpolated independently at the same
`intensity_col` value. -/
def colorOf (log : ℚ → ℚ) (vir : List (ℚ × ℚ × ℚ)) (i : NumVal) :
    NumVal × NumVal × NumVal :=
  (interpVal (intensityCol log i) (rampPoints (vir.map (fun c => c.1))),
   interpVal (intensityCol log i) (rampPoints (vir.map (fun c => c.2.1))),
   interpVal (intensityCol log i) (rampPoints (vir.map (fun c => c.2.2))))

/-- One row of the reshaped `(P, 4)` intensity buffer:
`(x, y, z, intensity)`. -/
structure Raw4 where
  x : NumVal
  y : NumVal
  z : NumVal
  i : NumVal
deriving DecidableEq

/-- `np.reshape(data, (int(data.shape[0] / 4), 4))`: succeeds exactly
when the float count is a multiple of 4 and never yields a partial
trailing row. -/
def reshape4 : List NumVal → Option (List Raw4)
  | [] => some []
  | x :: y :: z :: i :: rest => (reshape4 rest).map (fun rs => ⟨x, y, z, i⟩ :: rs)
  | _ => none

/-- Negate the first column of every full row of the flat float array:
the in-place `points[:, :1] = -points[:, :1]` seen through the flat
memory of the copied buffer. -/
def negate4k : List NumVal → List NumVal
  | x :: y :: z :: i :: rest => NumVal.neg x :: y :: z :: i :: negate4k rest
  | l => l

/-- `x` negation applied to one reshaped row. -/
def negRec (r : Raw4) : Raw4 := ⟨NumVal.neg r.x, r.y, r.z, r.i⟩

/-- The raw intensity-lidar payload: its float32 values together with
the count of trailing bytes that do not form a whole float.
`np.frombuffer(.., dtype=f4)` rejects a buffer whose byte length is not
a multiple of 4, so a payload splits uniquely this way. -/
structure RawBuffer where
  floats : List NumVal
  extraBytes : Fin 4
deriving DecidableEq

/-- Byte length of the raw payload. -/
def RawBuffer.byteLen (b : RawBuffer) : ℕ := 4 * b.floats.length + b.extraBytes.val

/-- A position triple as handed to Open3D. -/
abbrev Pos3 := NumVal × NumVal × NumVal

/-- `lidar_callback`: decode the raw buffer into `(points, colors)`.
Returns `none` when `np.frombuffer` or `np.reshape` raises on a
malformed length (in the script the exception escapes the callback and
the point list is left untouched). -/
def lidar_callback (log : ℚ → ℚ) (vir : List (ℚ × ℚ × ℚ)) (buf : RawBuffer) :
    Option (List Pos3 × List (NumVal × NumVal × NumVal)) :=
  if buf.extraBytes.val ≠ 0 then none
  else
    match reshape4 buf.floats with
    | none => none
    | some recs =>
      some (recs.map (fun r => (NumVal.neg r.x, r.y, r.z)),
            recs.map (fun r => colorOf log vir r.i))

/-- A float value is a finite number in the unit interval. -/
def NumVal.inUnit : NumVal → Bool
  | .fin q => decide (0 ≤ q ∧ q ≤ 1)
  | _ => false

/-- All three components of a color triple are in the unit interval. -/
def tripleInUnit (c : NumVal × NumVal × NumVal) : Bool :=
  c.1.inUnit && c.2.1.inUnit && c.2.2.inUnit

/-- Every colormap entry has all three channels inside `[0, 1]`. -/
def rampOk (vir : List (ℚ × ℚ × ℚ)) : Bool :=
  vir.all (fun c => decide (0 ≤ c.1 ∧ c.1 ≤ 1) && decide (0 ≤ c.2.1 ∧ c.2.1 ≤ 1)
    && decide (0 ≤ c.2.2 ∧ c.2.2 ≤ 1))

/-- A float value that is a nonnegative number (possibly `+inf`). -/
def nonnegVal : NumVal → Bool
  | .fin q => decide (0 ≤ q)
  | .posInf => true
  | _ => false

/-- Every intensity field (each fourth float) of the flat buffer is a
nonnegative number. -/
def intensOk : List NumVal → Bool
  | _ :: _ :: _ :: i :: rest => nonnegVal i && intensOk rest
  | _ => true

/-- Modelled from the spec: `VIRIDIS = np.array(cm.get_cmap(..).colors)`
is the plasma colormap of matplotlib, data external to this repository;
the spec fixes only that it is a fixed 256-entry ramp of RGB values in
`[0, 1]`.  This is a concrete stand-in with exactly those properties,
used to instantiate witnesses. -/
def plasmaModel : List (ℚ × ℚ × ℚ) :=
  (List.range 256).map (fun i : ℕ => ((i : ℚ) / 255, (i : ℚ) / 255, (i : ℚ) / 255))

/-- An RGB color as used by Open3D: three rationals (the semantic path
produces only exact table values, so no float specials arise there). -/
abbrev RGB := ℚ × ℚ × ℚ

/-- The suppression sentinel `[0.0, 0.0, 0.0]`. -/
def black : RGB := (0, 0, 0)

/-- The 29-entry CityScapes palette of the script, each channel divided
by 255 (`LABEL_COLORS = np.array([...]) / 255.0` before the suppression
overwrites). -/
def LABEL_COLORS_BASE : List RGB := [
  (255/255, 255/255, 255/255),
  (128/255, 64/255, 128/255),
  (244/255, 35/255, 232/255),
  (70/255, 70/255, 70/255),
  (102/255, 102/255, 156/255),
  (100/255, 40/255, 40/255),
  (153/255, 153/255, 153/255),
  (250/255, 170/255, 30/255),
  (220/255, 220/255, 0/255),
  (107/255, 142/255, 35/255),
  (145/255, 170/255, 100/255),
  (70/255, 130/255, 180/255),
  (220/255, 20/255, 60/255),
  (255/255, 0/255, 0/255),
  (0/255, 0/255, 142/255),
  (0/255, 60/255, 100/255),
  (0/255, 80/255, 100/255),
  (0/255, 0/255, 230/255),
  (119/255, 11/255, 32/255),
  (81/255, 0/255, 81/255),
  (110/255, 190/255, 160/255),
  (170/255, 120/255, 50/255),
  (55/255, 90/255, 80/255),
  (45/255, 60/255, 150/255),
  (157/255, 234/255, 50/255),
  (81/255, 0/255, 81/255),
  (150/255, 100/255, 100/255),
  (230/255, 150/255, 140/255),
  (180/255, 165/255, 180/255)]

/-- The palette after the suppression overwrites: indices 0 (None),
1 (Roads), 2 (Sidewalks), 10 (Terrain), 11 (Sky), 24 (RoadLines),
26 (Ground) and 27 (RailTrack) are set to black. -/
def LABEL_COLORS : List RGB :=
  ((((((((LABEL_COLORS_BASE.set 0 black).set 1 black).set 2 black).set 10
    black).set 11 black).set 24 black).set 26 black).set 27 black)

/-- One record of the semantic lidar buffer:
`(x, y, z, CosAngle, ObjIdx, ObjTag)` where the first four fields are
float32 and the last two are uint32. -/
structure SemRecord where
  x : NumVal
  y : NumVal
  z : NumVal
  cosAngle : NumVal
  objIdx : ℕ
  objTag : ℕ
deriving DecidableEq

/-- The semantic lidar payload: its whole 24-byte records plus the
count of trailing bytes that do not form a whole record
(`np.frombuffer` with the structured dtype rejects a buffer whose byte
length is not a multiple of the 24-byte element size). -/
structure SemBuffer where
  records : List SemRecord
  extraBytes : Fin 24
deriving DecidableEq

/-- Byte length of the semantic payload. -/
def SemBuffer.byteLen (b : SemBuffer) : ℕ := 24 * b.records.length + b.extraBytes.val

/-- `np.array([data[x], -data[y], data[z]]).T` applied to one record:
the semantic path negates the y component. -/
def adjPos (r : SemRecord) : Pos3 := (r.x, NumVal.neg r.y, r.z)

/-- Map a fallible function over a list, failing if any element fails:
the model of numpy fancy indexing `LABEL_COLORS[labels]`, which raises
`IndexError` as soon as any index is out of bounds and otherwise
allocates a fresh array of looked-up rows. -/
def mapOption {α : Type u} {β : Type v} (f : α → Option β) : List α → Option (List β)
  | [] => some []
  | a :: l =>
    match f a, mapOption f l with
    | some b, some bs => some (b :: bs)
    | _, _ => none

/-- The masked in-place assignment
`int_color[data[ObjIdx] == actor_id] = actor_colors[actor_id]`:
every point whose record carries `id` gets color `c`. -/
def overrideOnce (recs : List SemRecord) (c : RGB) (id : ℕ) (cols : List RGB) : List RGB :=
  List.zipWith (fun r col => if r.objIdx = id then c else col) recs cols

/-- The override loop: for every id of `ids` (the distinct `ObjIdx`
values of the batch), if the actor table knows the id, repaint its
points. -/
def applyOverrides (table : ℕ → Option RGB) (recs : List SemRecord) (ids : List ℕ)
    (cols : List RGB) : List RGB :=
  ids.foldl (fun cs id =>
    match table id with
    | some c => overrideOnce recs c id cs
    | none => cs) cols

/-- `semantic_lidar_callback`: decode the semantic buffer into
`(points, colors)`.  Returns `none` when `np.frombuffer` rejects the
length or the palette lookup raises `IndexError` on an out-of-range
class tag. -/
def semantic_lidar_callback (table : ℕ → Option RGB) (buf : SemBuffer) :
    Option (List Pos3 × List RGB) :=
  if buf.extraBytes.val ≠ 0 then none
  else
    match mapOption (fun r => LABEL_COLORS.get? r.objTag) buf.records with
    | none => none
    | some base =>
      let positions := buf.records.map adjPos
      let cols := applyOverrides table buf.records
        ((buf.records.map SemRecord.objIdx).dedup) base
      let kept := (positions.zip cols).filter (fun pc => decide (pc.2 ≠ black))
      some (kept.map Prod.fst, kept.map Prod.snd)

/-- The final color of one record as a function of the actor table: the
instance override when the table knows the id, the class-palette entry
otherwise. -/
def resolvedColor (table : ℕ → Option RGB) (r : SemRecord) : RGB :=
  match table r.objIdx with
  | some c => c
  | none => LABEL_COLORS.getD r.objTag black

/-- `POINT_DIFF_THRESHOLD`. -/
def POINT_DIFF_THRESHOLD : ℤ := 100

/-- One recording decision of the frame loop: write a snapshot when no
previous count was recorded or the count moved by more than the
threshold; the reference count is updated exactly when a snapshot is
written. -/
def recordStep (prev : Option ℕ) (n : ℕ) : Bool × Option ℕ :=
  match prev with
  | none => (true, some n)
  | some p =>
    if POINT_DIFF_THRESHOLD < |(n : ℤ) - (p : ℤ)| then (true, some n)
    else (false, some p)

/-- Observable renderer and persistence actions of one frame-loop
iteration. -/
inductive Ev where
  | add
  | update
  | write
deriving DecidableEq

/-- One iteration of the `while True` loop of `main`, given the frame
counter, the recorded point count and the current point count: register
the geometry only when `frame == 2`, update it every frame, then (when
recording) decide whether to persist a snapshot. -/
def frameBody (recOn : Bool) (frame : ℕ) (prev : Option ℕ) (n : ℕ) :
    List Ev × Option ℕ :=
  let evs := (if frame = 2 then [Ev.add] else []) ++ [Ev.update]
  if recOn then
    match recordStep prev n with
    | (w, prev2) => (evs ++ (if w then [Ev.write] else []), prev2)
  else (evs, prev)

/-- Run the frame loop for `n` iterations (frame counters `0..n-1`),
threading the recorded count and concatenating the observable events;
`counts f` is the point count the loop sees at frame `f`. -/
def runFrames (recOn : Bool) (counts : ℕ → ℕ) : ℕ → List Ev × Option ℕ
  | 0 => ([], none)
  | n + 1 =>
    match runFrames recOn counts n with
    | (evs, prev) =>
      match frameBody recOn n prev (counts n) with
      | (evs2, prev2) => (evs ++ evs2, prev2)

/-- Pointwise insertion into the actor-color table. -/
def updateTable (t : ℕ → Option RGB) (id : ℕ) (c : RGB) : ℕ → Option RGB :=
  fun m => if m = id then some c else t m

/-- The assignment loop of `main`: for every actor, draw a random color
only when the id is not yet present
(`if actor_id not in actor_colors: actor_colors[actor_id] = np.random.random(3)`).
The random generator is abstracted as `rand`. -/
def assignColors (rand : ℕ → RGB) (acts : List ℕ) (t : ℕ → Option RGB) :
    ℕ → Option RGB :=
  acts.foldl (fun tb a =>
    match tb a with
    | some _ => tb
    | none => updateTable tb a (rand a)) t

/-- A numpy array object living on the heap. -/
inductive PyObj where
  | rawBuf (b : RawBuffer)
  | floatArr (xs : List NumVal)
  | semBuf (b : SemBuffer)
  | colorArr (cs : List RGB)
  | posArr (ps : List Pos3)
deriving DecidableEq

/-- A tiny allocation heap: a partial store of array objects and the
next free reference. -/
structure Heap where
  mem : ℕ → Option PyObj
  next : ℕ

/-- Dereference. -/
def Heap.read (h : Heap) (r : ℕ) : Option PyObj := h.mem r

/-- Allocate a fresh object, returning the new heap and its reference. -/
def Heap.alloc (h : Heap) (v : PyObj) : Heap × ℕ :=
  (⟨fun i => if i = h.next then some v else h.mem i, h.next + 1⟩, h.next)

/-- Overwrite the object at an existing reference (an in-place numpy
assignment through any view of that array). -/
def Heap.write (h : Heap) (r : ℕ) (v : PyObj) : Heap :=
  ⟨fun i => if i = r then some v else h.mem i, h.next⟩

/-- `lidar_callback` with its memory effects: `np.frombuffer` gives a
read-only view of the payload at `p`; `np.copy` allocates; `np.reshape`
and the column slice are views of the copy; the in-place negation
writes the copied cell through those views; the outputs are read back
from memory. -/
def lidar_callback_mem (log : ℚ → ℚ) (vir : List (ℚ × ℚ × ℚ)) (h : Heap) (p : ℕ) :
    Heap × Option (List Pos3 × List (NumVal × NumVal × NumVal)) :=
  match h.read p with
  | some (PyObj.rawBuf b) =>
    if b.extraBytes.val ≠ 0 then (h, none)
    else
      let h1 := (h.alloc (PyObj.floatArr b.floats)).1
      let a := (h.alloc (PyObj.floatArr b.floats)).2
      match reshape4 b.floats with
      | none => (h1, none)
      | some recs =>
        let h2 := h1.write a (PyObj.floatArr (negate4k b.floats))
        match h2.read a with
        | some (PyObj.floatArr flat2) =>
          match reshape4 flat2 with
          | some recs2 =>
            (h2, some (recs2.map (fun r => (r.x, r.y, r.z)),
                       recs.map (fun r => colorOf log vir r.i)))
          | none => (h2, none)
        | _ => (h1, none)
  | _ => (h, none)

/-- One iteration of the override loop acting on the heap: when the
actor table knows `id`, read the color array through its reference and
write back the repainted array in place. -/
def overrideStepMem (table : ℕ → Option RGB) (recs : List SemRecord) (aC : ℕ)
    (hh : Heap) (id : ℕ) : Heap :=
  match table id with
  | some c =>
    match hh.read aC with
    | some (PyObj.colorArr cs) =>
      hh.write aC (PyObj.colorArr (overrideOnce recs c id cs))
    | _ => hh
  | none => hh

/-- `semantic_lidar_callback` with its memory effects: the position
array and the fancy-indexed base colors are fresh allocations; the
override loop writes the color array in place, once per known actor
id; the filtered outputs are fresh arrays built from the final memory
contents. -/
def semantic_lidar_callback_mem (table : ℕ → Option RGB) (h : Heap) (p : ℕ) :
    Heap × Option (List Pos3 × List RGB) :=
  match h.read p with
  | some (PyObj.semBuf s) =>
    if s.extraBytes.val ≠ 0 then (h, none)
    else
      let h1 := (h.alloc (PyObj.posArr (s.records.map adjPos))).1
      let aP := (h.alloc (PyObj.posArr (s.records.map adjPos))).2
      match mapOption (fun r => LABEL_COLORS.get? r.objTag) s.records with
      | none => (h1, none)
      | some base =>
        let h2 := (h1.alloc (PyObj.colorArr base)).1
        let aC := (h1.alloc (PyObj.colorArr base)).2
        let h3 := ((s.records.map SemRecord.objIdx).dedup).foldl
          (overrideStepMem table s.records aC) h2
        match h3.read aP, h3.read aC with
        | some (PyObj.posArr ps), some (PyObj.colorArr cs) =>
          let kept := (ps.zip cs).filter (fun pc => decide (pc.2 ≠ black))
          let h4 := (h3.alloc (PyObj.posArr (kept.map Prod.fst))).1
          let h5 := (h4.alloc (PyObj.colorArr (kept.map Prod.snd))).1
          (h5, some (kept.map Prod.fst, kept.map Prod.snd))
        | _, _ => (h3, none)
  | _ => (h, none)

theorem zipWith_id_right {α : Type u} {β : Type v} :
    ∀ (l : List α) (b : List β), b.length ≤ l.length →
      List.zipWith (fun _ y => y) l b = b := by
  intro l
  induction l with
  | nil => intro b h; simp at h; simp [h]
  | cons a as ih =>
    intro b h
    cases b with
    | nil => simp
    | cons y ys => simp at h ⊢; exact ih ys h

theorem zipWith_zipWith_right {α β γ δ : Type u} (f : α → γ → δ) (g : α → β → γ) :
    ∀ (l : List α) (b : List β),
      List.zipWith f l (List.zipWith g l b) = List.zipWith (fun a y => f a (g a y)) l b := by
  intro l
  induction l with
  | nil => intro b; simp
  | cons a as ih =>
    intro b
    cases b with
    | nil => simp
    | cons y ys => simp [ih ys]

theorem zipWith_congr_mem {α β γ : Type u} (f g : α → β → γ) :
    ∀ (l : List α) (b : List β), (∀ a ∈ l, ∀ y, f a y = g a y) →
      List.zipWith f l b = List.zipWith g l b := by
  intro l
  induction l with
  | nil => intro b _; simp
  | cons a as ih =>
    intro b hfg
    cases b with
    | nil => simp
    | cons y ys =>
      simp only [List.zipWith_cons_cons]
      rw [hfg a (by simp) y, ih ys (fun x hx => hfg x (by simp [hx]))]

theorem zip_map_fst_snd {α β : Type u} :
    ∀ (l : List (α × β)), (l.map Prod.fst).zip (l.map Prod.snd) = l := by
  intro l
  induction l with
  | nil => rfl
  | cons p ps ih => simp [ih]

theorem mapOption_length {α : Type u} {β : Type v} (f : α → Option β) :
    ∀ (l : List α) (b : List β), mapOption f l = some b → b.length = l.length := by
  intro l
  induction l with
  | nil => intro b h; simp [mapOption] at h; simp [h.symm]
  | cons a as ih =>
    intro b h
    simp only [mapOption] at h
    cases hfa : f a with
    | none => rw [hfa] at h; exact absurd h (by simp)
    | some y =>
      rw [hfa] at h
      cases hrest : mapOption f as with
      | none => rw [hrest] at h; exact absurd h (by simp)
      | some ys =>
        rw [hrest] at h
        simp at h
        simp [h.symm, ih ys hrest]

theorem mapOption_none_of_mem {α : Type u} {β : Type v} (f : α → Option β) :
    ∀ (l : List α) (a : α), a ∈ l → f a = none → mapOption f l = none := by
  intro l
  induction l with
  | nil => intro a h; simp at h
  | cons x xs ih =>
    intro a ha hfa
    simp only [mapOption]
    rcases List.mem_cons.mp ha with h | h
    · rw [h.symm, hfa]
    · rw [ih a h hfa]; cases f x <;> rfl

theorem reshape4_length : ∀ (l : List NumVal) (rs : List Raw4),
    reshape4 l = some rs → l.length = 4 * rs.length := by
  intro l
  induction l using reshape4.induct with
  | case1 => intro rs h; simp [reshape4] at h; subst h; rfl
  | case2 x y z w rest ih =>
    intro rs h
    simp [reshape4] at h
    obtain ⟨as, has, rfl⟩ := h
    simp [ih as has]; ring
  | case3 l h1 h2 => intro rs h; simp [reshape4] at h

theorem reshape4_total : ∀ (k : ℕ) (l : List NumVal), l.length = 4 * k →
    ∃ rs, reshape4 l = some rs ∧ rs.length = k := by
  intro k
  induction k with
  | zero =>
    intro l h
    simp at h
    subst h
    exact ⟨[], rfl, rfl⟩
  | succ k ih =>
    intro l h
    match l with
    | [] => simp only [List.length_nil] at h; omega
    | [_] => simp only [List.length_cons, List.length_nil] at h; omega
    | [_, _] => simp only [List.length_cons, List.length_nil] at h; omega
    | [_, _, _] => simp only [List.length_cons, List.length_nil] at h; omega
    | x :: y :: z :: w :: rest =>
      simp at h
      obtain ⟨rs, hrs, hlen⟩ := ih rest (by omega)
      exact ⟨⟨x, y, z, w⟩ :: rs, by simp [reshape4, hrs], by simp [hlen]⟩

theorem reshape4_none (l : List NumVal) (h : l.length % 4 ≠ 0) : reshape4 l = none := by
  cases hr : reshape4 l with
  | none => rfl
  | some rs => exact absurd (by rw [reshape4_length l rs hr]; omega) h

theorem reshape4_intens : ∀ (l : List NumVal) (rs : List Raw4),
    intensOk l = true → reshape4 l = some rs → ∀ r ∈ rs, nonnegVal r.i = true := by
  intro l
  induction l using reshape4.induct with
  | case1 =>
    intro rs _ h
    simp [reshape4] at h
    subst h; simp
  | case2 x y z w rest ih =>
    intro rs hok h
    simp [reshape4] at h
    obtain ⟨as, has, rfl⟩ := h
    simp [intensOk] at hok
    intro r hr
    rcases List.mem_cons.mp hr with h | h
    · subst h; exact hok.1
    · exact ih as hok.2 has r h
  | case3 l h1 h2 => intro rs _ h; simp [reshape4] at h

theorem reshape4_negate4k : ∀ (l : List NumVal),
    reshape4 (negate4k l) = (reshape4 l).map (List.map negRec) := by
  intro l
  induction l using reshape4.induct with
  | case1 => rfl
  | case2 x y z w rest ih =>
    simp only [negate4k, reshape4, ih]
    cases reshape4 rest <;> simp [negRec]
  | case3 l h1 h2 =>
    have hnone : reshape4 l = none := by
      match l with
      | [] => exact (h1 rfl).elim
      | [_] => rfl
      | [_, _] => rfl
      | [_, _, _] => rfl
      | x :: y :: z :: w :: rest => exact (h2 x y z w rest rfl).elim
    have hneg : negate4k l = l := by
      match l with
      | [] => exact (h1 rfl).elim
      | [_] => rfl
      | [_, _] => rfl
      | [_, _, _] => rfl
      | x :: y :: z :: w :: rest => exact (h2 x y z w rest rfl).elim
    rw [hneg, hnone]; rfl

theorem interpSeg_unit (x : ℚ) (p0 p1 : ℚ × ℚ)
    (h0 : 0 ≤ p0.2) (h1 : p0.2 ≤ 1) (h2 : 0 ≤ p1.2) (h3 : p1.2 ≤ 1)
    (hx0 : p0.1 < x) (hx1 : x ≤ p1.1) :
    0 ≤ interpSeg x p0 p1 ∧ interpSeg x p0 p1 ≤ 1 := by
  have hd : 0 < p1.1 - p0.1 := by linarith
  have hval : interpSeg x p0 p1
      = (p0.2 * ((p1.1 - p0.1) - (x - p0.1)) + p1.2 * (x - p0.1)) / (p1.1 - p0.1) := by
    unfold interpSeg
    field_simp
    ring
  constructor
  · rw [hval]
    apply div_nonneg _ (le_of_lt hd)
    nlinarith
  · rw [hval]
    rw [div_le_one hd]
    nlinarith

theorem interpFrom_unit : ∀ (pts : List (ℚ × ℚ)) (p0 : ℚ × ℚ) (x : ℚ),
    0 ≤ p0.2 → p0.2 ≤ 1 → (∀ p ∈ pts, 0 ≤ p.2 ∧ p.2 ≤ 1) → p0.1 < x →
    0 ≤ interpFrom x p0 pts ∧ interpFrom x p0 pts ≤ 1 := by
  intro pts
  induction pts with
  | nil => intro p0 x h0 h1 _ _; simpa [interpFrom] using ⟨h0, h1⟩
  | cons p1 rest ih =>
    intro p0 x h0 h1 hall hx
    have hp1 := hall p1 (by simp)
    simp only [interpFrom]
    by_cases hle : x ≤ p1.1
    · simp only [hle, if_true]
      exact interpSeg_unit x p0 p1 h0 h1 hp1.1 hp1.2 hx hle
    · simp only [hle, if_false]
      exact ih p1 x hp1.1 hp1.2 (fun p hp => hall p (by simp [hp])) (lt_of_not_le hle)

theorem interpQ_unit (pts : List (ℚ × ℚ)) (x : ℚ)
    (hall : ∀ p ∈ pts, 0 ≤ p.2 ∧ p.2 ≤ 1) :
    0 ≤ interpQ x pts ∧ interpQ x pts ≤ 1 := by
  cases pts with
  | nil => simp [interpQ]
  | cons p0 rest =>
    have hp0 := hall p0 (by simp)
    simp only [interpQ]
    by_cases hle : x ≤ p0.1
    · simp only [hle, if_true]; exact hp0
    · simp only [hle, if_false]
      exact interpFrom_unit rest p0 x hp0.1 hp0.2
        (fun p hp => hall p (by simp [hp])) (lt_of_not_le hle)

theorem getD_getLast?_mem {α : Type u} : ∀ (l : List α) (d : α),
    l = [] ∨ (l.getLast?.getD d) ∈ l := by
  intro l
  induction l with
  | nil => intro d; exact Or.inl rfl
  | cons a t ih =>
    intro d
    right
    cases t with
    | nil => simp
    | cons b t2 =>
      rcases ih d with h | h
      · simp at h
      · rw [List.getLast?_cons_cons]
        exact List.mem_cons_of_mem a h

theorem interpVal_unit (v : NumVal) (pts : List (ℚ × ℚ))
    (hv : v ≠ NumVal.nan) (hall : ∀ p ∈ pts, 0 ≤ p.2 ∧ p.2 ≤ 1) :
    (interpVal v pts).inUnit = true := by
  cases v with
  | fin q =>
    have := interpQ_unit pts q hall
    simp [interpVal, NumVal.inUnit, this.1, this.2]
  | negInf =>
    cases pts with
    | nil => simp [interpVal, NumVal.inUnit]
    | cons p rest =>
      have := hall p (by simp)
      simp [interpVal, NumVal.inUnit, this.1, this.2]
  | posInf =>
    rcases getD_getLast?_mem pts ((0 : ℚ), (0 : ℚ)) with h | h
    · subst h; simp [interpVal, NumVal.inUnit]
    · cases hlast : pts.getLast? with
      | none => simp [interpVal, NumVal.inUnit, hlast]
      | some p =>
        rw [hlast] at h
        simp only [Option.getD_some] at h
        have hmem := hall p h
        simp [interpVal, NumVal.inUnit, hlast, hmem.1, hmem.2]
  | nan => exact absurd rfl hv

theorem intensityCol_not_nan (log : ℚ → ℚ) (i : NumVal) (hi : nonnegVal i = true) :
    intensityCol log i ≠ NumVal.nan := by
  cases i with
  | fin q =>
    simp only [nonnegVal, decide_eq_true_eq] at hi
    unfold intensityCol logVal
    have hneg : ¬ q < 0 := not_lt.mpr hi
    by_cases h0 : q = 0
    · simp [hneg, h0, divConst, oneSub, show (-2/5 : ℚ) < 0 by norm_num]
    · simp [hneg, h0, divConst, oneSub]
  | posInf =>
    unfold intensityCol logVal
    simp [divConst, oneSub, show (-2/5 : ℚ) < 0 by norm_num]
  | negInf => simp [nonnegVal] at hi
  | nan => simp [nonnegVal] at hi

theorem rampOk_channels (vir : List (ℚ × ℚ × ℚ)) (hr : rampOk vir = true) :
    (∀ p ∈ rampPoints (vir.map (fun c => c.1)), 0 ≤ p.2 ∧ p.2 ≤ 1)
    ∧ (∀ p ∈ rampPoints (vir.map (fun c => c.2.1)), 0 ≤ p.2 ∧ p.2 ≤ 1)
    ∧ (∀ p ∈ rampPoints (vir.map (fun c => c.2.2)), 0 ≤ p.2 ∧ p.2 ≤ 1) := by
  have hall := List.all_eq_true.mp hr
  refine ⟨?_, ?_, ?_⟩ <;>
  · rintro ⟨px, py⟩ hp
    have hmem := (List.of_mem_zip hp).2
    simp only [List.mem_map] at hmem
    obtain ⟨c, hc, hcy⟩ := hmem
    have := hall c hc
    simp only [Bool.and_eq_true, decide_eq_true_eq] at this
    subst hcy
    simp only []
    constructor <;> [exact (by tauto); exact (by tauto)]

theorem colorOf_inUnit (log : ℚ → ℚ) (vir : List (ℚ × ℚ × ℚ)) (i : NumVal)
    (hr : rampOk vir = true) (hi : nonnegVal i = true) :
    tripleInUnit (colorOf log vir i) = true := by
  have hnan := intensityCol_not_nan log i hi
  obtain ⟨h1, h2, h3⟩ := rampOk_channels vir hr
  unfold tripleInUnit colorOf
  simp only [Bool.and_eq_true]
  exact ⟨⟨interpVal_unit _ _ hnan h1, interpVal_unit _ _ hnan h2⟩,
    interpVal_unit _ _ hnan h3⟩

/-- C2 (amended): for every valid raw buffer of length 16P the intensity
decoder returns exactly P positions and P colors with no filtering, and
— provided every intensity sample is a nonnegative number — every
component of every returned color lies in [0, 1].  (As frozen the claim
holds for all buffers only with that proviso: a strictly negative
intensity, representable in the buffer though never produced by the
sensor, makes `np.log` return NaN, which propagates into the color.) -/
theorem c2_intensity_decoder (log : ℚ → ℚ) (vir : List (ℚ × ℚ × ℚ)) (buf : RawBuffer)
    (P : ℕ) (hlen : buf.byteLen = 16 * P) (hr : rampOk vir = true)
    (hint : intensOk buf.floats = true) :
    ∃ ps cs, lidar_callback log vir buf = some (ps, cs) ∧ ps.length = P ∧ cs.length = P ∧
      ∀ c ∈ cs, tripleInUnit c = true := by
  have hisLt := buf.extraBytes.isLt
  have hex : buf.extraBytes.val = 0 := by
    unfold RawBuffer.byteLen at hlen
    omega
  have hflen : buf.floats.length = 4 * P := by
    unfold RawBuffer.byteLen at hlen
    omega
  obtain ⟨rs, hrs, hrslen⟩ := reshape4_total P buf.floats hflen
  refine ⟨rs.map (fun r => (NumVal.neg r.x, r.y, r.z)),
    rs.map (fun r => colorOf log vir r.i), ?_, ?_, ?_, ?_⟩
  · unfold lidar_callback
    simp [hex, hrs]
  · simp [hrslen]
  · simp [hrslen]
  · intro c hc
    simp only [List.mem_map] at hc
    obtain ⟨r, hrmem, rfl⟩ := hc
    exact colorOf_inUnit log vir r.i hr (reshape4_intens buf.floats rs hint hrs r hrmem)

/-- The plasma stand-in satisfies the ramp range condition. -/
theorem rampOk_plasmaModel : rampOk plasmaModel = true := by
  rw [rampOk, List.all_eq_true]
  intro c hc
  rw [plasmaModel] at hc
  rw [List.mem_map] at hc
  obtain ⟨i, hi, rfl⟩ := hc
  rw [List.mem_range] at hi
  have h1 : (0 : ℚ) ≤ (i : ℚ) / 255 := by positivity
  have h2 : (i : ℚ) / 255 ≤ 1 := by
    rw [div_le_one (by norm_num)]
    exact_mod_cast Nat.le_of_lt_succ hi
  simp only [Bool.and_eq_true, decide_eq_true_eq]
  exact ⟨⟨⟨h1, h2⟩, h1, h2⟩, h1, h2⟩

/-- Witness for C2 at a concrete one-point buffer with intensity 1. -/
theorem c2_witness :
    ∃ ps cs, lidar_callback (fun _ => -1) plasmaModel
        ⟨[NumVal.fin 1, NumVal.fin 2, NumVal.fin 3, NumVal.fin 1], 0⟩ = some (ps, cs)
      ∧ ps.length = 1 ∧ cs.length = 1 ∧ ∀ c ∈ cs, tripleInUnit c = true :=
  c2_intensity_decoder (fun _ => -1) plasmaModel
    ⟨[NumVal.fin 1, NumVal.fin 2, NumVal.fin 3, NumVal.fin 1], 0⟩ 1
    (by decide) rampOk_plasmaModel (by decide)

/-- Counterexample to C2 as frozen: a valid 16-byte buffer whose single
record carries intensity -1 decodes to one point whose color is NaN in
every component, hence not inside [0, 1]. -/
theorem c2_counterexample :
    lidar_callback (fun _ => -1) plasmaModel
        ⟨[NumVal.fin 1, NumVal.fin 2, NumVal.fin 3, NumVal.fin (-1)], 0⟩
      = some ([(NumVal.fin (-1), NumVal.fin 2, NumVal.fin 3)],
              [(NumVal.nan, NumVal.nan, NumVal.nan)])
    ∧ tripleInUnit (NumVal.nan, NumVal.nan, NumVal.nan) = false := by
  constructor
  · rfl
  · rfl

/-- C3: the intensity path applies no fallback for nonpositive
intensity: `np.log 0 = -inf` and `np.log` of a negative number is NaN,
and either non-finite value is handed directly to the interpolation
stage (which then clamps `-inf` to the first ramp entry), instead of
the intensity being clamped to a positive epsilon before the
logarithm. -/
theorem c3_unclamped_log :
    (∀ log : ℚ → ℚ, intensityCol log (NumVal.fin 0) = NumVal.negInf
      ∧ intensityCol log (NumVal.fin (-1)) = NumVal.nan)
    ∧ ∀ (log : ℚ → ℚ) (vir : List (ℚ × ℚ × ℚ)),
      lidar_callback log vir ⟨[NumVal.fin 5, NumVal.fin 6, NumVal.fin 7, NumVal.fin 0], 0⟩
      = some ([(NumVal.fin (-5), NumVal.fin 6, NumVal.fin 7)],
              [(interpVal NumVal.negInf (rampPoints (vir.map (fun c => c.1))),
                interpVal NumVal.negInf (rampPoints (vir.map (fun c => c.2.1))),
                interpVal NumVal.negInf (rampPoints (vir.map (fun c => c.2.2))))]) := by
  have hcol : ∀ log : ℚ → ℚ, intensityCol log (NumVal.fin 0) = NumVal.negInf := by
    intro log
    simp [intensityCol, logVal, divConst, oneSub, show (-2/5 : ℚ) < 0 by norm_num]
  constructor
  · intro log
    refine ⟨hcol log, ?_⟩
    norm_num [intensityCol, logVal, divConst, oneSub]
  · intro log vir
    norm_num [lidar_callback, reshape4, colorOf, hcol log, NumVal.neg]

/-- C6: a buffer whose byte length is not a multiple of the record
stride (16 on the intensity path, 24 on the semantic path) makes the
decoder fail outright with no partially decoded output. -/
theorem c6_malformed_length :
    (∀ (log : ℚ → ℚ) (vir : List (ℚ × ℚ × ℚ)) (b : RawBuffer),
      b.byteLen % 16 ≠ 0 → lidar_callback log vir b = none)
    ∧ (∀ (table : ℕ → Option RGB) (s : SemBuffer),
      s.byteLen % 24 ≠ 0 → semantic_lidar_callback table s = none) := by
  constructor
  · intro log vir b h
    have hisLt := b.extraBytes.isLt
    unfold lidar_callback
    by_cases hex : b.extraBytes.val = 0
    · have hlen : b.floats.length % 4 ≠ 0 := by
        unfold RawBuffer.byteLen at h
        omega
      rw [reshape4_none _ hlen]
      simp [hex]
    · simp [hex]
  · intro table s h
    have hisLt := s.extraBytes.isLt
    have hex : s.extraBytes.val ≠ 0 := by
      unfold SemBuffer.byteLen at h
      omega
    unfold semantic_lidar_callback
    simp [hex]

/-- Witness for C6: a 5-byte raw payload and a 3-byte semantic payload
are both rejected. -/
theorem c6_witness :
    lidar_callback (fun _ => 0) plasmaModel ⟨[NumVal.fin 1], 1⟩ = none
    ∧ semantic_lidar_callback (fun _ => none) ⟨[], 3⟩ = none :=
  ⟨c6_malformed_length.1 (fun _ => 0) plasmaModel ⟨[NumVal.fin 1], 1⟩ (by decide),
   c6_malformed_length.2 (fun _ => none) ⟨[], 3⟩ (by decide)⟩

theorem applyOverrides_cons (table : ℕ → Option RGB) (recs : List SemRecord)
    (id : ℕ) (ids : List ℕ) (cols : List RGB) :
    applyOverrides table recs (id :: ids) cols
      = applyOverrides table recs ids
          (match table id with
           | some c => overrideOnce recs c id cols
           | none => cols) := rfl

theorem applyOverrides_zipWith (table : ℕ → Option RGB) (recs : List SemRecord) :
    ∀ (ids : List ℕ) (cols : List RGB), cols.length = recs.length →
      applyOverrides table recs ids cols
      = List.zipWith (fun r col =>
          if r.objIdx ∈ ids then
            match table r.objIdx with
            | some c => c
            | none => col
          else col) recs cols := by
  intro ids
  induction ids with
  | nil =>
    intro cols hlen
    simp only [applyOverrides, List.foldl_nil, List.not_mem_nil, if_false]
    exact (zipWith_id_right recs cols (le_of_eq hlen)).symm
  | cons id ids ih =>
    intro cols hlen
    rw [applyOverrides_cons]
    cases htid : table id with
    | none =>
      simp only []
      rw [ih cols hlen]
      apply zipWith_congr_mem
      intro a _ y
      by_cases hmem : a.objIdx ∈ ids
      · simp [hmem, List.mem_cons]
      · by_cases heq : a.objIdx = id
        · simp [hmem, heq, htid, List.mem_cons]
        · simp [hmem, heq, List.mem_cons]
    | some c =>
      simp only []
      have hlen2 : (overrideOnce recs c id cols).length = recs.length := by
        simp [overrideOnce, hlen]
      rw [ih (overrideOnce recs c id cols) hlen2]
      unfold overrideOnce
      rw [zipWith_zipWith_right]
      apply zipWith_congr_mem
      intro a _ y
      by_cases hmem : a.objIdx ∈ ids
      · cases htag : table a.objIdx with
        | none =>
          have hne : a.objIdx ≠ id := by
            intro hc
            rw [hc, htid] at htag
            exact Option.noConfusion htag
          simp [hmem, hne, htag, List.mem_cons]
        | some c2 => simp [hmem, htag, List.mem_cons]
      · by_cases heq : a.objIdx = id
        · simp [hmem, heq, htid, List.mem_cons]
        · simp [hmem, heq, List.mem_cons]

theorem palette_zip_resolved (table : ℕ → Option RGB) :
    ∀ (recs : List SemRecord) (base : List RGB),
      mapOption (fun r => LABEL_COLORS.get? r.objTag) recs = some base →
      (recs.map adjPos).zip (List.zipWith (fun r col =>
          match table r.objIdx with
          | some c => c
          | none => col) recs base)
        = recs.map (fun r => (adjPos r, resolvedColor table r)) := by
  intro recs
  induction recs with
  | nil =>
    intro base h
    simp only [mapOption] at h
    simp [h.symm]
  | cons r rs ih =>
    intro base h
    simp only [mapOption] at h
    cases hr : LABEL_COLORS.get? r.objTag with
    | none => rw [hr] at h; exact absurd h (by simp)
    | some b =>
      rw [hr] at h
      cases hrs : mapOption (fun r => LABEL_COLORS.get? r.objTag) rs with
      | none => rw [hrs] at h; exact absurd h (by simp)
      | some bs =>
        rw [hrs] at h
        simp only [Option.some.injEq] at h
        subst h
        simp only [List.map_cons, List.zipWith_cons_cons, List.zip_cons_cons]
        rw [ih bs hrs]
        have hres : (match table r.objIdx with
            | some c => c
            | none => b) = resolvedColor table r := by
          unfold resolvedColor
          cases table r.objIdx with
          | some c => rfl
          | none =>
            simp only []
            rw [List.get?_eq_getElem?] at hr
            rw [List.getD_eq_getElem?_getD, hr]
            rfl
        rw [hres]

theorem semantic_decode_kept (table : ℕ → Option RGB) (buf : SemBuffer)
    (out : List Pos3 × List RGB) (h : semantic_lidar_callback table buf = some out) :
    ∃ kept, out = (kept.map Prod.fst, kept.map Prod.snd)
      ∧ kept = (buf.records.map (fun r => (adjPos r, resolvedColor table r))).filter
          (fun pc => decide (pc.2 ≠ black)) := by
  unfold semantic_lidar_callback at h
  by_cases hex : buf.extraBytes.val ≠ 0
  · rw [if_pos hex] at h
    exact Option.noConfusion h
  · rw [if_neg hex] at h
    cases hbase : mapOption (fun r => LABEL_COLORS.get? r.objTag) buf.records with
    | none => rw [hbase] at h; exact Option.noConfusion h
    | some base =>
      rw [hbase] at h
      simp only [Option.some.injEq] at h
      refine ⟨((buf.records.map adjPos).zip
        (applyOverrides table buf.records ((buf.records.map SemRecord.objIdx).dedup) base)).filter
          (fun pc => decide (pc.2 ≠ black)), h.symm, ?_⟩
      have hblen : base.length = buf.records.length :=
        mapOption_length (fun r => LABEL_COLORS.get? r.objTag) buf.records base hbase
      rw [applyOverrides_zipWith table buf.records _ base hblen]
      have hdrop : List.zipWith (fun r col =>
          if r.objIdx ∈ (buf.records.map SemRecord.objIdx).dedup then
            match table r.objIdx with
            | some c => c
            | none => col
          else col) buf.records base
        = List.zipWith (fun r col =>
            match table r.objIdx with
            | some c => c
            | none => col) buf.records base := by
        apply zipWith_congr_mem
        intro a ha y
        have : a.objIdx ∈ (buf.records.map SemRecord.objIdx).dedup :=
          List.mem_dedup.mpr (List.mem_map_of_mem SemRecord.objIdx ha)
        simp [this]
      rw [hdrop, palette_zip_resolved table buf.records base hbase]

/-- The palette has exactly 29 entries. -/
theorem LABEL_COLORS_length : LABEL_COLORS.length = 29 := rfl

/-- Concrete actor table used by witnesses: actor id 7 owns the color
(1, 0, 0). -/
def wTable : ℕ → Option RGB := fun n => if n = 7 then some (1, 0, 0) else none

/-- Concrete semantic buffer used by witnesses: a Car point (tag 14)
carried by actor 7 at (1, 2, 3), and a suppressed None point (tag 0)
of actor 6. -/
def wBuf : SemBuffer :=
  ⟨[⟨NumVal.fin 1, NumVal.fin 2, NumVal.fin 3, NumVal.fin 1, 7, 14⟩,
    ⟨NumVal.fin 4, NumVal.fin 5, NumVal.fin 6, NumVal.fin 1, 6, 0⟩], 0⟩

/-- The decode of `wBuf` under `wTable`: only the Car point survives,
with y negated and the actor-override color. -/
def wOut : List Pos3 × List RGB :=
  ([(NumVal.fin 1, NumVal.fin (-2), NumVal.fin 3)], [(1, 0, 0)])

/-- C1: for every valid semantic buffer of length 24P that decodes, the
output has positions and colors of equal length, at most P points, is
exactly the in-order subsequence of points whose final resolved color
(instance override applied over the class palette) is not black, and
hence never contains a black color. -/
theorem c1_semantic_filter (table : ℕ → Option RGB) (buf : SemBuffer) (P : ℕ)
    (hlen : buf.byteLen = 24 * P) (out : List Pos3 × List RGB)
    (h : semantic_lidar_callback table buf = some out) :
    out.1.length = out.2.length ∧ out.1.length ≤ P
    ∧ out.1.zip out.2
        = (buf.records.map (fun r => (adjPos r, resolvedColor table r))).filter
            (fun pc => decide (pc.2 ≠ black))
    ∧ ∀ c ∈ out.2, c ≠ black := by
  obtain ⟨kept, hout, hkept⟩ := semantic_decode_kept table buf out h
  have hisLt := buf.extraBytes.isLt
  have hP : buf.records.length = P := by
    unfold SemBuffer.byteLen at hlen
    omega
  subst hout
  refine ⟨by simp, ?_, ?_, ?_⟩
  · simp only [List.length_map]
    calc kept.length
        ≤ (buf.records.map (fun r => (adjPos r, resolvedColor table r))).length := by
          rw [hkept]; exact List.length_filter_le _ _
      _ = P := by simp [hP]
  · rw [zip_map_fst_snd kept, hkept]
  · intro c hc
    simp only [List.mem_map] at hc
    obtain ⟨pc, hpc, rfl⟩ := hc
    rw [hkept] at hpc
    have := List.of_mem_filter hpc
    simpa using this

/-- Witness for C1 on the concrete two-point buffer. -/
theorem c1_witness :
    wBuf.byteLen = 24 * 2 ∧ semantic_lidar_callback wTable wBuf = some wOut
    ∧ (wOut.1.length = wOut.2.length ∧ wOut.1.length ≤ 2
      ∧ wOut.1.zip wOut.2
          = (wBuf.records.map (fun r => (adjPos r, resolvedColor wTable r))).filter
              (fun pc => decide (pc.2 ≠ black))
      ∧ ∀ c ∈ wOut.2, c ≠ black) :=
  ⟨by decide, by decide,
   c1_semantic_filter wTable wBuf 2 (by decide) wOut (by decide)⟩

/-- C7: a semantic record whose class tag is at least the palette
length 29 makes the whole decode fail (numpy raises IndexError on the
out-of-range fancy index; nothing is wrapped or clamped and no output
is produced). -/
theorem c7_tag_out_of_range (table : ℕ → Option RGB) (buf : SemBuffer)
    (h : ∃ r ∈ buf.records, 29 ≤ r.objTag) :
    semantic_lidar_callback table buf = none := by
  obtain ⟨r, hr, htag⟩ := h
  unfold semantic_lidar_callback
  by_cases hex : buf.extraBytes.val ≠ 0
  · rw [if_pos hex]
  · rw [if_neg hex]
    have hnone : LABEL_COLORS.get? r.objTag = none := by
      rw [List.get?_eq_none, LABEL_COLORS_length]
      omega
    rw [mapOption_none_of_mem (fun r => LABEL_COLORS.get? r.objTag) buf.records r hr hnone]

/-- Witness for C7: tag 29 on an otherwise well-formed one-record
buffer is rejected. -/
theorem c7_witness :
    semantic_lidar_callback (fun _ => none)
      ⟨[⟨NumVal.fin 1, NumVal.fin 1, NumVal.fin 1, NumVal.fin 1, 0, 29⟩], 0⟩ = none :=
  c7_tag_out_of_range (fun _ => none)
    ⟨[⟨NumVal.fin 1, NumVal.fin 1, NumVal.fin 1, NumVal.fin 1, 0, 29⟩], 0⟩
    ⟨⟨NumVal.fin 1, NumVal.fin 1, NumVal.fin 1, NumVal.fin 1, 0, 29⟩, by simp, by decide⟩

/-- C5: the two coordinate adapters negate different axes: the
intensity path emits `(-x, y, z)` for every decoded record, the
semantic path pairs `(x, -y, z)` with every resolved color. -/
theorem c5_axis_negation :
    (∀ (log : ℚ → ℚ) (vir : List (ℚ × ℚ × ℚ)) (b : RawBuffer) (recs : List Raw4),
      b.extraBytes.val = 0 → reshape4 b.floats = some recs →
      lidar_callback log vir b
        = some (recs.map (fun r => (NumVal.neg r.x, r.y, r.z)),
                recs.map (fun r => colorOf log vir r.i)))
    ∧ ∀ (table : ℕ → Option RGB) (buf : SemBuffer) (out : List Pos3 × List RGB),
      semantic_lidar_callback table buf = some out →
      out.1.zip out.2
        = (buf.records.map (fun r => ((r.x, NumVal.neg r.y, r.z), resolvedColor table r))).filter
            (fun pc => decide (pc.2 ≠ black)) := by
  constructor
  · intro log vir b recs hex hrs
    unfold lidar_callback
    simp [hex, hrs]
  · intro table buf out h
    obtain ⟨kept, hout, hkept⟩ := semantic_decode_kept table buf out h
    subst hout
    rw [zip_map_fst_snd kept, hkept]
    rfl

/-- Witness for C5: the point (1, 2, 3) becomes (-1, 2, 3) on the
intensity path and (1, -2, 3) on the semantic path. -/
theorem c5_witness :
    lidar_callback (fun _ => -1) plasmaModel
        ⟨[NumVal.fin 1, NumVal.fin 2, NumVal.fin 3, NumVal.fin 1], 0⟩
      = some (([(⟨NumVal.fin 1, NumVal.fin 2, NumVal.fin 3, NumVal.fin 1⟩ : Raw4)].map
                (fun r => (NumVal.neg r.x, r.y, r.z)),
               [(⟨NumVal.fin 1, NumVal.fin 2, NumVal.fin 3, NumVal.fin 1⟩ : Raw4)].map
                (fun r => colorOf (fun _ => -1) plasmaModel r.i)))
    ∧ wOut.1.zip wOut.2
        = (wBuf.records.map (fun r => ((r.x, NumVal.neg r.y, r.z), resolvedColor wTable r))).filter
            (fun pc => decide (pc.2 ≠ black)) :=
  ⟨c5_axis_negation.1 (fun _ => -1) plasmaModel
      ⟨[NumVal.fin 1, NumVal.fin 2, NumVal.fin 3, NumVal.fin 1], 0⟩
      [⟨NumVal.fin 1, NumVal.fin 2, NumVal.fin 3, NumVal.fin 1⟩] (by decide) (by decide),
   c5_axis_negation.2 wTable wBuf wOut (by decide)⟩

theorem assignColors_cons (rand : ℕ → RGB) (a : ℕ) (as : List ℕ) (t0 : ℕ → Option RGB) :
    assignColors rand (a :: as) t0
      = assignColors rand as
          (match t0 a with
           | some _ => t0
           | none => updateTable t0 a (rand a)) := rfl

/-- C8: an actor-table entry, once present, is never changed: the
assignment loop of `main` skips known ids, the decoder never writes
the table, every record carrying the id resolves to the stored color,
and every decode output is colored through that resolution. -/
theorem c8_actor_color_stability (t0 : ℕ → Option RGB) (id : ℕ) (c : RGB)
    (rand : ℕ → RGB) (acts : List ℕ) (h : t0 id = some c) :
    assignColors rand acts t0 id = some c
    ∧ (∀ r : SemRecord, r.objIdx = id → resolvedColor t0 r = c)
    ∧ ∀ (buf : SemBuffer) (out : List Pos3 × List RGB),
        semantic_lidar_callback t0 buf = some out →
        out.1.zip out.2
          = (buf.records.map (fun r => (adjPos r, resolvedColor t0 r))).filter
              (fun pc => decide (pc.2 ≠ black)) := by
  refine ⟨?_, ?_, ?_⟩
  · induction acts generalizing t0 with
    | nil => exact h
    | cons a as ih =>
      rw [assignColors_cons]
      apply ih
      cases hta : t0 a with
      | some v => simpa [hta] using h
      | none =>
        simp only [hta]
        unfold updateTable
        by_cases hid : id = a
        · rw [hid] at h; rw [h] at hta; exact Option.noConfusion hta
        · simp [hid, h]
  · intro r hr
    unfold resolvedColor
    rw [hr, h]
  · intro buf out hdec
    obtain ⟨kept, hout, hkept⟩ := semantic_decode_kept t0 buf out hdec
    subst hout
    rw [zip_map_fst_snd kept, hkept]

/-- Witness for C8: id 7 keeps color (1, 0, 0) through a later
assignment pass over actors [5, 7] and through the decode of `wBuf`. -/
theorem c8_witness :
    assignColors (fun _ => (0, 1, 0)) [5, 7] wTable 7 = some (1, 0, 0)
    ∧ resolvedColor wTable ⟨NumVal.fin 1, NumVal.fin 2, NumVal.fin 3, NumVal.fin 1, 7, 14⟩ = (1, 0, 0)
    ∧ wOut.1.zip wOut.2
        = (wBuf.records.map (fun r => (adjPos r, resolvedColor wTable r))).filter
            (fun pc => decide (pc.2 ≠ black)) := by
  have hh := c8_actor_color_stability wTable 7 (1, 0, 0) (fun _ => (0, 1, 0)) [5, 7] (by decide)
  exact ⟨hh.1, hh.2.1 ⟨NumVal.fin 1, NumVal.fin 2, NumVal.fin 3, NumVal.fin 1, 7, 14⟩ rfl,
    hh.2.2 wBuf wOut (by decide)⟩

theorem runFrames_succ (r : Bool) (counts : ℕ → ℕ) (n : ℕ) :
    runFrames r counts (n + 1)
      = ((runFrames r counts n).1
           ++ (frameBody r n (runFrames r counts n).2 (counts n)).1,
         (frameBody r n (runFrames r counts n).2 (counts n)).2) := rfl

theorem frameBody_shape (recOn : Bool) (f : ℕ) (prev : Option ℕ) (n : ℕ) :
    frameBody recOn f prev n
      = ((if f = 2 then [Ev.add] else []) ++ [Ev.update]
          ++ (if recOn && (recordStep prev n).1 then [Ev.write] else []),
         if recOn then (recordStep prev n).2 else prev) := by
  unfold frameBody
  cases hrs : recordStep prev n with
  | mk w p2 =>
    cases recOn <;> cases w <;> simp

/-- C4: with recording enabled, a snapshot write happens after the
frame's render update exactly when no count was recorded before or the
point count moved by strictly more than the threshold 100; the
recorded count is updated exactly when a write happens.  Concretely,
1000 to 1050 writes nothing and keeps 1000, 1000 to 1200 writes and
records 1200; with recording disabled nothing is ever written. -/
theorem c4_recording_threshold :
    (∀ (f : ℕ) (prev : Option ℕ) (n : ℕ),
      (Ev.write ∈ (frameBody true f prev n).1
        ↔ prev = none ∨ ∃ p, prev = some p ∧ POINT_DIFF_THRESHOLD < |(n : ℤ) - (p : ℤ)|)
      ∧ (frameBody true f prev n).1
          = (if f = 2 then [Ev.add] else []) ++ [Ev.update]
            ++ (if Ev.write ∈ (frameBody true f prev n).1 then [Ev.write] else [])
      ∧ (frameBody true f prev n).2
          = (if Ev.write ∈ (frameBody true f prev n).1 then some n else prev))
    ∧ (∀ (f : ℕ) (prev : Option ℕ) (n : ℕ), Ev.write ∉ (frameBody false f prev n).1)
    ∧ Ev.write ∉ (frameBody true 10 (some 1000) 1050).1
    ∧ Ev.write ∈ (frameBody true 10 (some 1000) 1200).1
    ∧ (frameBody true 10 (some 1000) 1050).2 = some 1000
    ∧ (frameBody true 10 (some 1000) 1200).2 = some 1200 := by
  have hmem : ∀ (f : ℕ) (prev : Option ℕ) (n : ℕ),
      Ev.write ∈ (frameBody true f prev n).1 ↔ (recordStep prev n).1 = true := by
    intro f prev n
    rw [frameBody_shape]
    cases hw : (recordStep prev n).1 <;> by_cases hf : f = 2 <;> simp [hf]
  have hcond : ∀ (prev : Option ℕ) (n : ℕ),
      (recordStep prev n).1 = true
        ↔ prev = none ∨ ∃ p, prev = some p ∧ POINT_DIFF_THRESHOLD < |(n : ℤ) - (p : ℤ)| := by
    intro prev n
    cases prev with
    | none => simp [recordStep]
    | some p =>
      by_cases hc : POINT_DIFF_THRESHOLD < |(n : ℤ) - (p : ℤ)|
      · simp [recordStep, hc]
      · simp [recordStep, hc]
  refine ⟨?_, ?_, ?_, ?_, ?_, ?_⟩
  · intro f prev n
    refine ⟨(hmem f prev n).trans (hcond prev n), ?_, ?_⟩
    · rw [frameBody_shape]
      by_cases hf : f = 2 <;> cases hw : (recordStep prev n).1 <;>
        simp [hf, hw, hmem, frameBody_shape]
    · rw [frameBody_shape]
      cases hw : (recordStep prev n).1 with
      | true =>
        have : Ev.write ∈ (frameBody true f prev n).1 := (hmem f prev n).mpr hw
        simp only [this, if_true, Bool.and_true]
        cases prev with
        | none => simp [recordStep] at hw ⊢
        | some p =>
          by_cases hc : POINT_DIFF_THRESHOLD < |(n : ℤ) - (p : ℤ)|
          · simp [recordStep, hc]
          · simp [recordStep, hc] at hw
      | false =>
        have : ¬ Ev.write ∈ (frameBody true f prev n).1 := by
          rw [hmem f prev n, hw]; simp
        simp only [this, if_false]
        cases prev with
        | none => simp [recordStep] at hw
        | some p =>
          by_cases hc : POINT_DIFF_THRESHOLD < |(n : ℤ) - (p : ℤ)|
          · simp [recordStep, hc] at hw
          · simp [recordStep, hc]
  · intro f prev n
    rw [frameBody_shape]
    by_cases hf : f = 2 <;> simp [hf]
  · decide
  · decide
  · decide
  · decide

/-- C9 (amended): the geometry is updated on every frame, but it is
registered exactly once, on the frame with counter 2 (the third
iteration), immediately before that frame's update; over a run of N
frames the registration event appears exactly once as soon as N
reaches 3. -/
theorem c9_register_once :
    (∀ (r : Bool) (counts : ℕ → ℕ) (N : ℕ),
      (runFrames r counts N).1.count Ev.add = if 3 ≤ N then 1 else 0)
    ∧ ∀ (r : Bool) (f : ℕ) (prev : Option ℕ) (n : ℕ),
      (frameBody r f prev n).1.filter (fun e => decide (e = Ev.add ∨ e = Ev.update))
        = if f = 2 then [Ev.add, Ev.update] else [Ev.update] := by
  have hcount : ∀ (r : Bool) (f : ℕ) (prev : Option ℕ) (n : ℕ),
      (frameBody r f prev n).1.count Ev.add = if f = 2 then 1 else 0 := by
    intro r f prev n
    rw [frameBody_shape]
    by_cases hf : f = 2 <;>
      cases hw : r && (recordStep prev n).1 <;> simp [hf]
  constructor
  · intro r counts N
    induction N with
    | zero => simp [runFrames]
    | succ N ih =>
      rw [runFrames_succ]
      simp only [List.count_append, ih, hcount]
      split_ifs <;> omega
  · intro r f prev n
    rw [frameBody_shape]
    by_cases hf : f = 2 <;>
      cases hw : r && (recordStep prev n).1 <;> simp [hf]

/-- Counterexample to C9 as frozen: on the first two frames (counters
0 and 1) the geometry is updated without ever having been registered —
no registration event occurs at all before frame 2 — and later frames
(counter 3 on) also update without registering again. -/
theorem c9_counterexample :
    (frameBody false 0 none 0).1 = [Ev.update]
    ∧ (frameBody false 1 none 0).1 = [Ev.update]
    ∧ (frameBody false 3 none 0).1 = [Ev.update]
    ∧ (frameBody false 2 none 0).1 = [Ev.add, Ev.update]
    ∧ Ev.add ∉ (frameBody false 0 none 0).1
    ∧ Ev.add ∉ (frameBody true 0 none 100).1
    ∧ Ev.add ∉ (frameBody true 1 (some 0) 100).1 := by
  decide

theorem Heap.read_write_self (h : Heap) (r : ℕ) (v : PyObj) :
    (h.write r v).read r = some v := by
  simp [Heap.write, Heap.read]

theorem Heap.read_write_ne (h : Heap) (r q : ℕ) (v : PyObj) (hne : q ≠ r) :
    (h.write r v).read q = h.read q := by
  simp [Heap.write, Heap.read, hne]

theorem Heap.write_next (h : Heap) (r : ℕ) (v : PyObj) : (h.write r v).next = h.next := rfl

theorem Heap.read_alloc_lt (h : Heap) (v : PyObj) (q : ℕ) (hq : q < h.next) :
    (h.alloc v).1.read q = h.read q := by
  simp [Heap.alloc, Heap.read, Nat.ne_of_lt hq]

theorem Heap.read_alloc_self (h : Heap) (v : PyObj) :
    (h.alloc v).1.read h.next = some v := by
  simp [Heap.alloc, Heap.read]


theorem Heap.alloc_snd (h : Heap) (v : PyObj) : (h.alloc v).2 = h.next := rfl

theorem Heap.alloc_fst_next (h : Heap) (v : PyObj) : (h.alloc v).1.next = h.next + 1 := rfl

theorem fold_overrideStepMem (table : ℕ → Option RGB) (recs : List SemRecord) (aC : ℕ) :
    ∀ (ids : List ℕ) (h : Heap) (cs : List RGB),
      h.read aC = some (PyObj.colorArr cs) →
      (ids.foldl (overrideStepMem table recs aC) h).read aC
          = some (PyObj.colorArr (applyOverrides table recs ids cs))
      ∧ (∀ q, q ≠ aC → (ids.foldl (overrideStepMem table recs aC) h).read q = h.read q)
      ∧ (ids.foldl (overrideStepMem table recs aC) h).next = h.next := by
  intro ids
  induction ids with
  | nil =>
    intro h cs hread
    exact ⟨by simpa [applyOverrides] using hread, fun q _ => rfl, rfl⟩
  | cons id ids ih =>
    intro h cs hread
    rw [List.foldl_cons, applyOverrides_cons]
    cases htid : table id with
    | none =>
      have hstep : overrideStepMem table recs aC h id = h := by
        unfold overrideStepMem
        rw [htid]
      rw [hstep]
      exact ih h cs hread
    | some c =>
      have hstep : overrideStepMem table recs aC h id
          = h.write aC (PyObj.colorArr (overrideOnce recs c id cs)) := by
        unfold overrideStepMem
        rw [htid, hread]
      rw [hstep]
      obtain ⟨h1, h2, h3⟩ := ih (h.write aC (PyObj.colorArr (overrideOnce recs c id cs)))
        (overrideOnce recs c id cs) (Heap.read_write_self h aC _)
      refine ⟨h1, ?_, ?_⟩
      · intro q hq
        rw [h2 q hq, Heap.read_write_ne h aC q _ hq]
      · rw [h3, Heap.write_next]

/-- C10: neither callback modifies the delivered payload: the intensity
path copies the buffer before the in-place x negation, so the write
lands on the copy, and the semantic path only writes the freshly
allocated color array; in both cases the heap cell of the payload is
unchanged after the callback and the produced output agrees with the
pure decoder. -/
theorem c10_payload_unchanged (log : ℚ → ℚ) (vir : List (ℚ × ℚ × ℚ))
    (table : ℕ → Option RGB) :
    (∀ (h : Heap) (p : ℕ) (b : RawBuffer),
      h.read p = some (PyObj.rawBuf b) → p < h.next →
      (lidar_callback_mem log vir h p).1.read p = h.read p
      ∧ (lidar_callback_mem log vir h p).2 = lidar_callback log vir b)
    ∧ ∀ (h : Heap) (p : ℕ) (s : SemBuffer),
      h.read p = some (PyObj.semBuf s) → p < h.next →
      (semantic_lidar_callback_mem table h p).1.read p = h.read p
      ∧ (semantic_lidar_callback_mem table h p).2 = semantic_lidar_callback table s := by
  constructor
  · intro h p b hp hlt
    unfold lidar_callback_mem
    simp only [hp]
    by_cases hex : b.extraBytes.val ≠ 0
    · rw [if_pos hex]
      exact ⟨hp, by rw [lidar_callback, if_pos hex]⟩
    · rw [if_neg hex]
      cases hrs : reshape4 b.floats with
      | none =>
        simp only [hrs]
        refine ⟨?_, by rw [lidar_callback, if_neg hex, hrs]⟩
        rw [Heap.read_alloc_lt h _ p hlt]
        exact hp
      | some recs =>
        simp only [hrs, Heap.alloc_snd, Heap.read_write_self, reshape4_negate4k,
          Option.map_some']
        constructor
        · rw [Heap.read_write_ne _ _ _ _ (Nat.ne_of_lt hlt), Heap.read_alloc_lt h _ p hlt]
          exact hp
        · rw [lidar_callback, if_neg hex, hrs]
          simp only [List.map_map]
          rfl
  · intro h p s hp hlt
    unfold semantic_lidar_callback_mem
    simp only [hp]
    by_cases hex : s.extraBytes.val ≠ 0
    · rw [if_pos hex]
      exact ⟨hp, by rw [semantic_lidar_callback, if_pos hex]⟩
    · rw [if_neg hex]
      cases hbase : mapOption (fun r => LABEL_COLORS.get? r.objTag) s.records with
      | none =>
        simp only [hbase]
        refine ⟨?_, by rw [semantic_lidar_callback, if_neg hex, hbase]⟩
        rw [Heap.read_alloc_lt h _ p hlt]
        exact hp
      | some base =>
        simp only [hbase, Heap.alloc_snd, Heap.alloc_fst_next]
        obtain ⟨hc1, hc2, hc3⟩ := fold_overrideStepMem table s.records (h.next + 1)
          ((s.records.map SemRecord.objIdx).dedup)
          ((h.alloc (PyObj.posArr (s.records.map adjPos))).1.alloc (PyObj.colorArr base)).1
          base (Heap.read_alloc_self _ _)
        have haP : ((h.alloc (PyObj.posArr (s.records.map adjPos))).1.alloc
            (PyObj.colorArr base)).1.read h.next
            = some (PyObj.posArr (s.records.map adjPos)) := by
          rw [Heap.read_alloc_lt _ _ h.next (by simp [Heap.alloc_fst_next])]
          exact Heap.read_alloc_self h _
        simp only [hc2 h.next (by omega), haP, hc1]
        have hnext3 : (((s.records.map SemRecord.objIdx).dedup).foldl
            (overrideStepMem table s.records (h.next + 1))
            ((h.alloc (PyObj.posArr (s.records.map adjPos))).1.alloc
              (PyObj.colorArr base)).1).next = h.next + 2 := by
          rw [hc3, Heap.alloc_fst_next, Heap.alloc_fst_next]
        constructor
        · rw [Heap.read_alloc_lt _ _ p (by rw [Heap.alloc_fst_next, hnext3]; omega),
            Heap.read_alloc_lt _ _ p (by rw [hnext3]; omega),
            hc2 p (by omega),
            Heap.read_alloc_lt _ _ p (by rw [Heap.alloc_fst_next]; omega),
            Heap.read_alloc_lt h _ p hlt]
          exact hp
        · rw [semantic_lidar_callback, if_neg hex, hbase]

/-- Concrete two-cell heap used by the C10 witness: cell 0 holds a raw
payload, cell 1 the semantic payload `wBuf`. -/
def wHeap : Heap :=
  ⟨fun i =>
    if i = 0 then
      some (PyObj.rawBuf ⟨[NumVal.fin 1, NumVal.fin 2, NumVal.fin 3, NumVal.fin 1], 0⟩)
    else if i = 1 then some (PyObj.semBuf wBuf) else none, 2⟩

/-- Witness for C10 on the concrete heap. -/
theorem c10_witness :
    ((lidar_callback_mem (fun _ => -1) plasmaModel wHeap 0).1.read 0 = wHeap.read 0
      ∧ (lidar_callback_mem (fun _ => -1) plasmaModel wHeap 0).2
          = lidar_callback (fun _ => -1) plasmaModel
              ⟨[NumVal.fin 1, NumVal.fin 2, NumVal.fin 3, NumVal.fin 1], 0⟩)
    ∧ ((semantic_lidar_callback_mem wTable wHeap 1).1.read 1 = wHeap.read 1
      ∧ (semantic_lidar_callback_mem wTable wHeap 1).2
          = semantic_lidar_callback wTable wBuf) :=
  ⟨(c10_payload_unchanged (fun _ => -1) plasmaModel wTable).1 wHeap 0
      ⟨[NumVal.fin 1, NumVal.fin 2, NumVal.fin 3, NumVal.fin 1], 0⟩ (by decide) (by decide),
   (c10_payload_unchanged (fun _ => -1) plasmaModel wTable).2 wHeap 1 wBuf
      (by decide) (by decide)⟩

/-- Witness for C4: the two concrete recording decisions of the claim. -/
theorem c4_witness :
    Ev.write ∉ (frameBody true 10 (some 1000) 1050).1
    ∧ Ev.write ∈ (frameBody true 10 (some 1000) 1200).1
    ∧ (frameBody true 10 (some 1000) 1050).2 = some 1000
    ∧ (frameBody true 10 (some 1000) 1200).2 = some 1200 :=
  ⟨c4_recording_threshold.2.2.1, c4_recording_threshold.2.2.2.1,
   c4_recording_threshold.2.2.2.2.1, c4_recording_threshold.2.2.2.2.2⟩

/-- Witness for C9 (amended): one registration over a five-frame run,
and frame 2 is the only frame whose renderer events are add-then-update. -/
theorem c9_witness :
    (runFrames false (fun _ => 0) 5).1.count Ev.add = 1
    ∧ (frameBody false 2 none 0).1.filter (fun e => decide (e = Ev.add ∨ e = Ev.update))
        = [Ev.add, Ev.update]
    ∧ (frameBody false 0 none 0).1.filter (fun e => decide (e = Ev.add ∨ e = Ev.update))
        = [Ev.update] :=
  ⟨by simpa using c9_register_once.1 false (fun _ => 0) 5,
   by simpa using c9_register_once.2 false 2 none 0,
   by simpa using c9_register_once.2 false 0 none 0⟩
